import Mathlib

/-!
Shallow embedding of the VGM chip clock/volume header tools
(`vgm-chip-volume.py` and `k007232-dualchip-stereo-or-mono.py`).

Buffers are `List Nat` of byte values; little-endian multi-byte fields are
packed and read explicitly.  Fallible operations (Python `struct` range
errors, `sys.exit`) are modelled with `Option`.  The command-stream loop is
modelled with explicit fuel because the source loop does not always make
progress (see `pmcLoop_stuck_on_truncated_datablock`).
-/

/-- Byte access with default 0, matching indexed reads on a Python buffer
that are only performed in range. -/
def byteAt (l : List Nat) (i : Nat) : Nat := l.getD i 0

/-- Little-endian 4-byte encoding of a value (`struct.pack("<I", v)`). -/
def packU32LE (v : Nat) : List Nat :=
  [v % 256, v / 256 % 256, v / 65536 % 256, v / 16777216 % 256]

/-- Little-endian 2-byte encoding of a value (`struct.pack("<H", v)`). -/
def packU16LE (v : Nat) : List Nat := [v % 256, v / 256 % 256]

/-- Single byte encoding (`struct.pack("<B", v)`). -/
def packU8 (v : Nat) : List Nat := [v % 256]

/-- Little-endian 4-byte read (`struct.unpack_from("<I", buf, i)`). -/
def readU32LE (l : List Nat) (i : Nat) : Nat :=
  byteAt l i + 256 * byteAt l (i + 1) + 65536 * byteAt l (i + 2) +
    16777216 * byteAt l (i + 3)

/-- `ReadRelOfs` from the source: stored 0 means absent, a non-zero stored
value resolves to `bufofs + val`. -/
def ReadRelOfs (buffer : List Nat) (bufofs : Nat) : Nat :=
  let val := readU32LE buffer bufofs
  if val = 0 then 0 else bufofs + val

/-- `struct.pack_into("<I", buf, ofs, v)`: fails (like the Python call
raising `struct.error`) when the value is out of `u32` range or the buffer
is too short. -/
def packIntoU32 (buffer : List Nat) (bufofs : Nat) (v : Int) : Option (List Nat) :=
  if 0 ≤ v ∧ v < 4294967296 ∧ bufofs + 4 ≤ buffer.length then
    some (buffer.take bufofs ++ packU32LE v.toNat ++ buffer.drop (bufofs + 4))
  else none

/-- `WriteRelOfs` from the source: a non-zero target is stored relative to
the field's own position; 0 is stored as the literal 0. -/
def WriteRelOfs (buffer : List Nat) (bufofs : Nat) (value : Int) : Option (List Nat) :=
  packIntoU32 buffer bufofs (if value ≠ 0 then value - bufofs else value)

/-- Clock override entry `(chipId, instanceBit, clockHz)`.  The float
rounding branch of the source is performed upstream of this encoder; the
integer path is embedded. -/
abbrev ClkEntry := Nat × Nat × Nat

/-- Volume override entry `(chipId, instance, volume)`; a negative volume is
re-encoded as a relative adjustment. -/
abbrev VolEntry := Nat × Nat × Int

/-- `GenerateChipClockHeader`: entry count byte, then per entry one byte
`(instanceBit<<7)|chipId` and a 4-byte little-endian clock. -/
def GenerateChipClockHeader (hdr : List ClkEntry) : List Nat :=
  if hdr = [] then [] else
    packU8 hdr.length ++
      (hdr.map (fun e => packU8 ((e.2.1 <<< 7) ||| e.1) ++ packU32LE e.2.2)).flatten

/-- `GenerateChipVolHeader`: entry count byte, then per entry chip id byte,
instance byte, and a 2-byte volume; negative volumes become
`0x8000 | abs(v)`. -/
def GenerateChipVolHeader (hdr : List VolEntry) : List Nat :=
  if hdr = [] then [] else
    packU8 hdr.length ++
      (hdr.map (fun e =>
        let chipVol : Nat := if e.2.2 < 0 then 0x8000 ||| e.2.2.natAbs else e.2.2.toNat
        packU8 e.1 ++ packU8 e.2.1 ++ packU16LE chipVol)).flatten

/-- `GenerateExtraHeader`: builds the two sub-headers, computes the running
sub-header offsets and the count `subHdrCnt` (index after the last
non-empty sub-block, exactly as the source loop computes it), adjusts each
present offset by its distance to its own pointer field, and truncates the
packed 3-field offset table to `xhSize` bytes. -/
def GenerateExtraHeader (clkHdr : List ClkEntry) (volHdr : List VolEntry) : List Nat :=
  let ccData := GenerateChipClockHeader clkHdr
  let cvData := GenerateChipVolHeader volHdr
  let subHdrData := [ccData, cvData]
  let st := subHdrData.foldl
    (fun (st : List Nat × Nat × Nat × Nat) shData =>
      let ofsList := st.1
      let subHdrCnt := st.2.1
      let subHdrOfs := st.2.2.1
      let subIdx := st.2.2.2
      if 0 < shData.length then
        (ofsList ++ [subHdrOfs], subIdx + 1, subHdrOfs + shData.length, subIdx + 1)
      else
        (ofsList ++ [0], subHdrCnt, subHdrOfs, subIdx + 1))
    ([], 0, 0, 0)
  let shOfsList := st.1
  let subHdrCnt := st.2.1
  let xhSize := (1 + subHdrCnt) * 4
  let adjusted := (List.range shOfsList.length).map (fun subIdx =>
    if 0 < (subHdrData.getD subIdx []).length then
      shOfsList.getD subIdx 0 + (subHdrCnt - subIdx) * 4
    else
      shOfsList.getD subIdx 0)
  (packU32LE xhSize ++ packU32LE (adjusted.getD 0 0) ++
    packU32LE (adjusted.getD 1 0)).take xhSize ++ ccData ++ cvData

/-- Per-chip mono-fold configuration: base register and mode
(`mono = true` stands for `'mode': 'mono'`). -/
structure ChipCfg where
  base : Nat
  mono : Bool
deriving DecidableEq

/-- The `k007232_config` table: chip 0 at base 0x10, chip 1 at base 0x90,
with the two modes supplied by the command line. -/
def k007232_config (m0 m1 : Bool) : List ChipCfg :=
  [⟨0x10, m0⟩, ⟨0x90, m1⟩]

/-- The `cmd_lengths` table of `process_mono_commands`
(`cmd_lengths.get(cmd, 1)` with default 1).  Entries of the source dict that
map to the default 1 (0x40, 0x50, 0x62, 0x63, 0x66, 0x68, 0x70-0x8F) are
collapsed into the default branch; the function is extensionally the same
lookup. -/
def cmd_lengths (c : Nat) : Nat :=
  if 0x41 ≤ c ∧ c ≤ 0x4F then 3
  else if 0x51 ≤ c ∧ c ≤ 0x5F then 3
  else if c = 0x61 then 2
  else if c = 0x67 then 0
  else if c = 0x90 ∨ c = 0x91 then 4
  else if c = 0x92 then 6
  else if c = 0x93 ∨ c = 0x94 then 2
  else if c = 0x95 then 3
  else if c = 0xE0 then 4
  else 1

/-- Effective length of the command at the head of the remaining stream:
the table length, except that a 0x67 data block with at least 7 bytes
remaining reads its 4-byte payload size 3 bytes after the opcode. -/
def effLen (s : List Nat) : Nat :=
  match s with
  | [] => 0
  | c :: _ => if c = 0x67 ∧ 7 ≤ s.length then 7 + readU32LE s 3 else cmd_lengths c

/-- One chip's turn of the inner `for chip_id, config in k007232_config`
loop: the accumulator carries the bytes emitted so far for this command and
the `modified` flag. -/
def monoStep (cur : List Nat) (reg v : Nat) (acc : List Nat × Bool)
    (cfg : ChipCfg) : List Nat × Bool :=
  if cfg.mono then
    if reg = cfg.base then (acc.1 ++ cur ++ [0x41, cfg.base + 1, v], true)
    else if reg = cfg.base + 3 then (acc.1 ++ cur ++ [0x41, cfg.base + 2, v], true)
    else if reg = cfg.base + 1 ∨ reg = cfg.base + 2 then (acc.1, true)
    else acc
  else acc

/-- Bytes emitted for one complete 0x41 command `cur = [0x41, reg, val]`:
the chip loop runs over the whole configuration; if no chip set `modified`,
the command is passed through verbatim. -/
def handle41 (cfgs : List ChipCfg) (cur : List Nat) : List Nat :=
  match cur with
  | _ :: reg :: v :: _ =>
    let r := cfgs.foldl (monoStep cur reg v) ([], false)
    if r.2 then r.1 else cur
  | _ => cur

/-- The `while i < len(cmd_stream)` loop of `process_mono_commands`
(vgm-chip-volume.py), with explicit fuel; `none` means the fuel ran out.
When the declared command length exceeds the remaining buffer the loop
breaks, ending the output without the tail bytes. -/
def pmcLoop (cfgs : List ChipCfg) : Nat → List Nat → Option (List Nat)
  | 0, _ => none
  | _ + 1, [] => some []
  | fuel + 1, c :: rest =>
    let s := c :: rest
    let len := effLen s
    if s.length < len then some []
    else
      let cur := s.take len
      let emitted := if c = 0x41 ∧ 3 ≤ len then handle41 cfgs cur else cur
      match pmcLoop cfgs fuel (s.drop len) with
      | none => none
      | some out => some (emitted ++ out)

/-- `process_mono_commands` of vgm-chip-volume.py: since every productive
iteration consumes at least one byte, `length + 1` fuel only runs out when
the source loop makes no progress at all (the stuck 0x67 case). -/
def process_mono_commands (cfgs : List ChipCfg) (cmd_stream : List Nat) :
    Option (List Nat) :=
  pmcLoop cfgs (cmd_stream.length + 1) cmd_stream

/-- Streams whose commands tokenize exactly to the end of the buffer: each
command has positive effective length and lies entirely inside the
remaining bytes. -/
inductive Tokenizes : List Nat → Prop
  | nil : Tokenizes []
  | cons (c : Nat) (rest : List Nat)
      (hpos : 0 < effLen (c :: rest))
      (hle : effLen (c :: rest) ≤ (c :: rest).length)
      (htail : Tokenizes ((c :: rest).drop (effLen (c :: rest)))) :
      Tokenizes (c :: rest)

/-- Whether the 12 bytes at the head of the stream are the four consecutive
0x41 writes `base+0 .. base+3` checked by the window-scan variant
(`process_mono_commands` of k007232-dualchip-stereo-or-mono.py). -/
def k7Block (base : Nat) (s : List Nat) : Bool :=
  decide (12 ≤ s.length) &&
    (List.range 4).all (fun off =>
      byteAt s (off * 3) == 0x41 && byteAt s (off * 3 + 1) == base + off &&
        byteAt s (off * 3 + 2) ≤ 0xFF)

/-- The loop of the window-scan variant: the first configured mono chip
whose 12-byte block matches is rewritten as a whole; otherwise a single
byte is copied. -/
def k7Loop (cfgs : List ChipCfg) : Nat → List Nat → Option (List Nat)
  | 0, _ => none
  | _ + 1, [] => some []
  | fuel + 1, c :: rest =>
    let s := c :: rest
    match cfgs.find? (fun cfg => cfg.mono && k7Block cfg.base s) with
    | some cfg =>
      let leftCh0 := byteAt s 2
      let rightCh1 := byteAt s 11
      match k7Loop cfgs fuel (s.drop 12) with
      | none => none
      | some out => some ([0x41, cfg.base, leftCh0, 0x41, cfg.base + 1, leftCh0,
          0x41, cfg.base + 2, rightCh1, 0x41, cfg.base + 3, rightCh1] ++ out)
    | none =>
      match k7Loop cfgs fuel rest with
      | none => none
      | some out => some (c :: out)

/-- `process_mono_commands` of k007232-dualchip-stereo-or-mono.py (the
window-scan variant); each iteration consumes 12 or 1 bytes, so
`length + 1` fuel always suffices. -/
def process_mono_commands_window (cfgs : List ChipCfg) (cmd_stream : List Nat) :
    Option (List Nat) :=
  k7Loop cfgs (cmd_stream.length + 1) cmd_stream

/-- The padding step of the extra-header replacement path (the
`if xDataSize > len(xHdrData)` branch): the source computes the pad count
as `len(xHdrData) - xDataSize`, which is negative exactly when the branch
is taken, and `b'\x00' * negative` is empty — modelled by `Int.toNat` of
the negative difference. -/
def padNewHeader (xHdrData : List Nat) (xDataSize : Int) : List Nat :=
  if (xHdrData.length : Int) < xDataSize then
    xHdrData ++ List.replicate ((xHdrData.length : Int) - xDataSize).toNat 0
  else xHdrData

/-- Lines 284-300 of vgm-chip-volume.py: move the pointer targets by
`ofsMove`, bump the version to 0x170 if below, and write the fields back;
a field whose moved target is 0 is not written (it keeps what the splice
left there). -/
def rewriteOffsets (buf : List Nat) (vgmVer dataOfs loopOfs gd3Ofs : Nat)
    (ofsMove : Int) : Option (List Nat) :=
  let dOfs : Int := (dataOfs : Int) + ofsMove
  let lOfs : Int := if loopOfs ≠ 0 then (loopOfs : Int) + ofsMove else 0
  let gOfs : Int := if gd3Ofs ≠ 0 then (gd3Ofs : Int) + ofsMove else 0
  match (if vgmVer < 0x170 then packIntoU32 buf 0x08 0x170 else some buf) with
  | none => none
  | some b1 =>
    match WriteRelOfs b1 0x34 dOfs with
    | none => none
    | some b2 =>
      match (if lOfs ≠ 0 then WriteRelOfs b2 0x1C lOfs else some b2) with
      | none => none
      | some b3 =>
        match (if gOfs ≠ 0 then WriteRelOfs b3 0x14 gOfs else some b3) with
        | none => none
        | some b4 => WriteRelOfs b4 0x04 (b4.length : Int)

/-- The module-level header-editing pipeline of vgm-chip-volume.py
(lines 234-300): version check, pointer reads with the dataOffset default
of 0x40, extra-header insertion or replacement, and the offset rewrite.
The module-level override lists `ChipClockHeaders` / `ChipVolumeHeaders`
are the empty constants of the source.  `none` models `sys.exit` and
`struct.error`. -/
def headerEdit (indata : List Nat) : Option (List Nat) :=
  let vgmVer := readU32LE indata 0x08
  if vgmVer < 0x150 then none
  else
    let gd3Ofs := ReadRelOfs indata 0x14
    let loopOfs := ReadRelOfs indata 0x1C
    let dataOfs0 := ReadRelOfs indata 0x34
    let dataOfs := if dataOfs0 = 0 then 0x40 else dataOfs0
    let hdrSize := if gd3Ofs = 0 then dataOfs else min dataOfs gd3Ofs
    let xDataOfs := if 0xC0 ≤ hdrSize then ReadRelOfs indata 0xBC else 0
    let xHdrData0 := GenerateExtraHeader [] []
    let xhPad := (16 - xHdrData0.length % 16) % 16
    let xHdrData := xHdrData0 ++ List.replicate xhPad 0
    if xDataOfs = 0 then
      let xDataOfs' := max 0xC0 hdrSize
      let hdrPadding := xDataOfs' - hdrSize
      let indata' := indata.take hdrSize ++ List.replicate hdrPadding 0 ++
        xHdrData ++ indata.drop hdrSize
      let ofsMove : Int := (hdrPadding : Int) + xHdrData.length
      match WriteRelOfs indata' 0xBC (xDataOfs' : Int) with
      | none => none
      | some indata'' => rewriteOffsets indata'' vgmVer dataOfs loopOfs gd3Ofs ofsMove
    else
      let xDataSize : Int := (hdrSize : Int) - xDataOfs
      let hdrSize2 := min hdrSize xDataOfs
      let xDataEndOfs : Int := (hdrSize2 : Int) + xDataSize
      let xHdrData2 := padNewHeader xHdrData xDataSize
      let indata' := indata.take hdrSize2 ++ xHdrData2 ++ indata.drop xDataEndOfs.toNat
      let ofsMove : Int := (xHdrData2.length : Int) - (xDataEndOfs - hdrSize2)
      rewriteOffsets indata' vgmVer dataOfs loopOfs gd3Ofs ofsMove

/-- A minimal 0x40-byte input image: version 0x150 at 0x08, every pointer
field stored as 0. -/
def zeroOfsImage : List Nat :=
  List.replicate 8 0 ++ [0x50, 0x01, 0, 0] ++ List.replicate 0x34 0

theorem byteAt_append_left (l r : List Nat) (i : Nat) (h : i < l.length) :
    byteAt (l ++ r) i = byteAt l i :=
  List.getD_append l r 0 i h

theorem byteAt_append_right (l r : List Nat) (i : Nat) (h : l.length ≤ i) :
    byteAt (l ++ r) i = byteAt r (i - l.length) :=
  List.getD_append_right l r 0 i h

theorem byteAt_take (l : List Nat) (n i : Nat) (h : i < n) :
    byteAt (l.take n) i = byteAt l i := by
  simp [byteAt, List.getD_eq_getElem?_getD, List.getElem?_take_of_lt h]

theorem byteAt_drop (l : List Nat) (n i : Nat) :
    byteAt (l.drop n) i = byteAt l (n + i) := by
  simp [byteAt, List.getD_eq_getElem?_getD, List.getElem?_drop]

theorem packU32LE_length (v : Nat) : (packU32LE v).length = 4 := rfl

theorem readU32LE_congr_of_byteAt (out buf : List Nat) (j : Nat)
    (h : ∀ k, k < 4 → byteAt out (j + k) = byteAt buf (j + k)) :
    readU32LE out j = readU32LE buf j := by
  unfold readU32LE
  have h0 := h 0 (by omega)
  have h1 := h 1 (by omega)
  have h2 := h 2 (by omega)
  have h3 := h 3 (by omega)
  simp only [Nat.add_zero] at h0
  rw [h0, h1, h2, h3]

theorem packIntoU32_spec (buf : List Nat) (ofs : Nat) (v : Int)
    (h1 : ofs + 4 ≤ buf.length) (h2 : 0 ≤ v) (h3 : v < 4294967296) :
    ∃ out, packIntoU32 buf ofs v = some out ∧ out.length = buf.length ∧
      readU32LE out ofs = v.toNat ∧
      ∀ j, j < ofs ∨ ofs + 4 ≤ j → byteAt out j = byteAt buf j := by
  have htl : (buf.take ofs).length = ofs := by
    simp [List.length_take]
    omega
  refine ⟨buf.take ofs ++ packU32LE v.toNat ++ buf.drop (ofs + 4), ?_, ?_, ?_, ?_⟩
  · simp [packIntoU32, h1, h2, h3]
  · simp [packU32LE]
    omega
  · have hb : ∀ k, k < 4 →
        byteAt (buf.take ofs ++ packU32LE v.toNat ++ buf.drop (ofs + 4)) (ofs + k) =
          byteAt (packU32LE v.toNat) k := by
      intro k hk
      rw [List.append_assoc, byteAt_append_right _ _ _ (by omega),
        htl, Nat.add_sub_cancel_left,
        byteAt_append_left _ _ _ (by simp [packU32LE]; omega)]
    have e0 := hb 0 (by omega)
    have e1 := hb 1 (by omega)
    have e2 := hb 2 (by omega)
    have e3 := hb 3 (by omega)
    simp only [Nat.add_zero] at e0
    unfold readU32LE
    rw [e0, e1, e2, e3]
    simp [packU32LE, byteAt]
    omega
  · intro j hj
    rcases hj with hj | hj
    · rw [List.append_assoc, byteAt_append_left _ _ _ (by omega),
        byteAt_take _ _ _ hj]
    · rw [List.append_assoc, byteAt_append_right _ _ _ (by omega), htl,
        byteAt_append_right _ _ _ (by simp [packU32LE]; omega)]
      rw [byteAt_drop]
      congr 1
      simp [packU32LE]
      omega

theorem WriteRelOfs_spec_pos (buf : List Nat) (p : Nat) (t : Int)
    (hlen : p + 4 ≤ buf.length) (h1 : (p : Int) < t) (h2 : t < (p : Int) + 4294967296) :
    ∃ out, WriteRelOfs buf p t = some out ∧ out.length = buf.length ∧
      (ReadRelOfs out p : Int) = t ∧
      ∀ j, j < p ∨ p + 4 ≤ j → byteAt out j = byteAt buf j := by
  have ht : t ≠ 0 := by omega
  obtain ⟨out, ho, hl, hr, hp⟩ :=
    packIntoU32_spec buf p (t - p) hlen (by omega) (by omega)
  refine ⟨out, ?_, hl, ?_, hp⟩
  · simpa [WriteRelOfs, ht] using ho
  · simp only [ReadRelOfs, hr]
    have hz : (t - (p : Int)).toNat ≠ 0 := by omega
    simp only [hz, if_false]
    omega

theorem length_clock_header_pos (hdr : List ClkEntry) (h : hdr ≠ []) :
    0 < (GenerateChipClockHeader hdr).length := by
  simp [GenerateChipClockHeader, h, packU8]

theorem length_vol_header_pos (hdr : List VolEntry) (h : hdr ≠ []) :
    0 < (GenerateChipVolHeader hdr).length := by
  simp [GenerateChipVolHeader, h, packU8]

theorem readU32LE_packU32LE_append (v : Nat) (r : List Nat) (h : v < 4294967296) :
    readU32LE (packU32LE v ++ r) 0 = v := by
  simp [readU32LE, packU32LE, byteAt]
  omega

/-- Closed form of `GenerateExtraHeader`: the offset table size is
`(1 + subHdrCnt) * 4` where `subHdrCnt` is the index after the last
non-empty sub-block, trailing absent pointer slots are truncated away, and
each present pointer is the distance from its own field position to its
sub-block. -/
theorem GenerateExtraHeader_eq (clk : List ClkEntry) (vol : List VolEntry) :
    GenerateExtraHeader clk vol =
      if vol = [] then
        (if clk = [] then packU32LE 4
         else packU32LE 8 ++ packU32LE 4 ++ GenerateChipClockHeader clk)
      else
        packU32LE 12 ++ packU32LE (if clk = [] then 0 else 8) ++
          packU32LE ((GenerateChipClockHeader clk).length + 4) ++
          GenerateChipClockHeader clk ++ GenerateChipVolHeader vol := by
  by_cases hv : vol = [] <;> by_cases hc : clk = [] <;>
    simp only [GenerateExtraHeader, hv, hc, if_true, if_false]
  · subst hv hc
    decide
  · have hcp := length_clock_header_pos clk hc
    have hve : GenerateChipVolHeader [] = [] := rfl
    simp [hve, hcp, Nat.pos_iff_ne_zero.mp hcp, List.range_succ, packU32LE]
  · have hvp := length_vol_header_pos vol hv
    have hce : GenerateChipClockHeader [] = [] := rfl
    simp [hce, hvp, Nat.pos_iff_ne_zero.mp hvp, List.range_succ, packU32LE]
  · have hcp := length_clock_header_pos clk hc
    have hvp := length_vol_header_pos vol hv
    simp [hcp, hvp, Nat.pos_iff_ne_zero.mp hcp, Nat.pos_iff_ne_zero.mp hvp,
      List.range_succ, packU32LE]

theorem WriteRelOfs_spec_zero (buf : List Nat) (p : Nat) (hlen : p + 4 ≤ buf.length) :
    ∃ out, WriteRelOfs buf p 0 = some out ∧ out.length = buf.length ∧
      readU32LE out p = 0 ∧ ReadRelOfs out p = 0 ∧
      ∀ j, j < p ∨ p + 4 ≤ j → byteAt out j = byteAt buf j := by
  obtain ⟨out, ho, hl, hr, hp⟩ :=
    packIntoU32_spec buf p 0 hlen (by omega) (by omega)
  refine ⟨out, ?_, hl, ?_, ?_, hp⟩
  · simpa [WriteRelOfs] using ho
  · simpa using hr
  · simp only [ReadRelOfs]
    simp only [hr]
    simp

/-- The window-scan variant of the second source file maps the spec's
example stream to exactly the byte order the spec's example lists (mirror
before the pass-through of `base+3`), unlike the per-register rewrite. -/
theorem window_variant_matches_spec_example :
    process_mono_commands_window (k007232_config true true)
      [0x41, 0x10, 0x7F, 0x41, 0x11, 0x00, 0x41, 0x12, 0x10, 0x41, 0x13, 0x40] =
      some [0x41, 0x10, 0x7F, 0x41, 0x11, 0x7F, 0x41, 0x12, 0x40, 0x41, 0x13, 0x40] := by
  decide

/-- Claim C5, counterexample: the extra-header block for
`clocks = [(0x00, 0, 3579545)]`, `vols = []` is not the claimed byte
sequence — the clock pointer field holds 4 (not 8), the absent volume slot
is truncated away rather than written as four zero bytes, and 3579545
encodes as `99 9E 36 00`. -/
theorem extra_header_example_cex :
    GenerateExtraHeader [(0x00, 0, 3579545)] [] ≠
      [0x08, 0, 0, 0, 0x08, 0, 0, 0, 0, 0, 0, 0, 0x01, 0x00, 0x7D, 0x99, 0x36, 0x00] := by
  decide

/-- Claim C5 (amended): the encoded extra-header block begins with a 4-byte
`blockSize = (1 + subHdrCnt) * 4`, where `subHdrCnt` is the index after
the last non-empty sub-block (2 if volumes are present, else 1 if clocks
are present, else 0), followed by one 4-byte pointer per slot up to
`subHdrCnt` only (trailing absent slots are truncated away), each present
pointer relative to its own field position; in particular
`clocks=[(0x00,0,3579545)]`, `vols=[]` encodes to
`08 00 00 00, 04 00 00 00, 01, 00, 99 9E 36 00`. -/
theorem extra_header_layout :
    (∀ (clkHdr : List ClkEntry) (volHdr : List VolEntry),
      readU32LE (GenerateExtraHeader clkHdr volHdr) 0 =
        (1 + (if volHdr ≠ [] then 2 else if clkHdr ≠ [] then 1 else 0)) * 4) ∧
    GenerateExtraHeader [(0x00, 0, 3579545)] [] =
      [0x08, 0, 0, 0, 0x04, 0, 0, 0, 0x01, 0x00, 0x99, 0x9E, 0x36, 0x00] := by
  constructor
  · intro clkHdr volHdr
    rw [GenerateExtraHeader_eq]
    by_cases hv : volHdr = [] <;> by_cases hc : clkHdr = [] <;>
      simp only [hv, hc, if_true, if_false, ne_eq, not_true_eq_false,
        not_false_eq_true]
    · decide
    · rw [List.append_assoc, readU32LE_packU32LE_append 8 _ (by omega)]
    · rw [List.append_assoc, List.append_assoc, List.append_assoc,
        readU32LE_packU32LE_append 12 _ (by omega)]
    · rw [List.append_assoc, List.append_assoc, List.append_assoc,
        readU32LE_packU32LE_append 12 _ (by omega)]
  · decide

/-- Claim C6 (code bug): the replacement path's padding step computes the
pad count as `len(xHdrData) - xDataSize`, which is negative exactly when
padding is needed, so `b'\x00' * pad` adds nothing: a 16-byte new block
replacing a 32-byte old region stays 16 bytes instead of being padded to
32. -/
theorem padNewHeader_no_padding :
    padNewHeader (List.replicate 16 1) 32 = List.replicate 16 1 ∧
      (padNewHeader (List.replicate 16 1) 32).length ≠ 32 := by
  decide

/-- Claim C8: an input whose version field is below 0x150 makes the header
pipeline abort (`sys.exit` before any mutation): no output buffer is
produced. -/
theorem headerEdit_aborts_on_old_version (indata : List Nat)
    (h : readU32LE indata 0x08 < 0x150) : headerEdit indata = none := by
  simp [headerEdit, h]

/-- Witness for `headerEdit_aborts_on_old_version` at a concrete all-zero
image. -/
theorem headerEdit_aborts_on_old_version_witness :
    readU32LE (List.replicate 0x40 0) 0x08 < 0x150 ∧
      headerEdit (List.replicate 0x40 0) = none :=
  ⟨by decide, headerEdit_aborts_on_old_version (List.replicate 0x40 0) (by decide)⟩

/-- Claim C9, counterexample: writing the target 4 into the field at
position 4 stores the literal 0, and reading back yields 0, not the
written non-zero target. -/
theorem relofs_roundtrip_cex :
    (WriteRelOfs (List.replicate 8 0) 4 4).map (fun b => ReadRelOfs b 4) = some 0 ∧
      (0 : Nat) ≠ 4 := by
  decide

/-- Claim C9 (amended): the relative-offset round-trip holds for every
non-zero target strictly beyond the field position (and within u32 range
of it): `ReadRelOfs` after `WriteRelOfs buf fieldPos target` returns
`target`, and `WriteRelOfs buf fieldPos 0` leaves the stored 32-bit field
literally 0.  A target equal to the field position is stored as 0 and read
back as absent, and a non-zero target below the field position makes the
`u32` pack fail, so neither round-trips. -/
theorem relofs_roundtrip (buf : List Nat) (fieldPos : Nat) (target : Int)
    (hlen : fieldPos + 4 ≤ buf.length)
    (h1 : (fieldPos : Int) < target)
    (h2 : target < (fieldPos : Int) + 4294967296) :
    (∃ out, WriteRelOfs buf fieldPos target = some out ∧
      (ReadRelOfs out fieldPos : Int) = target) ∧
    (∃ out0, WriteRelOfs buf fieldPos 0 = some out0 ∧
      readU32LE out0 fieldPos = 0) := by
  constructor
  · obtain ⟨out, ho, _, hr, _⟩ := WriteRelOfs_spec_pos buf fieldPos target hlen h1 h2
    exact ⟨out, ho, hr⟩
  · obtain ⟨out0, ho, _, hr, _, _⟩ := WriteRelOfs_spec_zero buf fieldPos hlen
    exact ⟨out0, ho, hr⟩

/-- Witness for `relofs_roundtrip` at a concrete buffer, field position 4
and target 0x50. -/
theorem relofs_roundtrip_witness :
    (4 + 4 ≤ (List.replicate 8 (0 : Nat)).length) ∧
    (((4 : Nat) : Int) < 0x50) ∧
    ((0x50 : Int) < ((4 : Nat) : Int) + 4294967296) ∧
    ((∃ out, WriteRelOfs (List.replicate 8 0) 4 0x50 = some out ∧
        (ReadRelOfs out 4 : Int) = 0x50) ∧
      (∃ out0, WriteRelOfs (List.replicate 8 0) 4 0 = some out0 ∧
        readU32LE out0 4 = 0)) :=
  ⟨by decide, by decide, by decide,
    relofs_roundtrip (List.replicate 8 0) 4 0x50 (by decide) (by decide) (by decide)⟩

/-- Claim C10: when the written target equals the field's own position
(and is non-zero), `WriteRelOfs` stores the literal 0 and a subsequent
`ReadRelOfs` returns 0 ("absent"), so a target at the field itself is not
representable. -/
theorem WriteRelOfs_self_target (buf : List Nat) (fieldPos : Nat)
    (hlen : fieldPos + 4 ≤ buf.length) (hp : fieldPos ≠ 0) :
    ∃ out, WriteRelOfs buf fieldPos ((fieldPos : Nat) : Int) = some out ∧
      readU32LE out fieldPos = 0 ∧ ReadRelOfs out fieldPos = 0 := by
  have hne : ((fieldPos : Nat) : Int) ≠ 0 := by
    exact_mod_cast hp
  have hw : WriteRelOfs buf fieldPos ((fieldPos : Nat) : Int) =
      packIntoU32 buf fieldPos 0 := by
    simp [WriteRelOfs, hne]
  obtain ⟨out, ho, _, hr, _⟩ := packIntoU32_spec buf fieldPos 0 hlen (by omega) (by omega)
  rw [hw]
  refine ⟨out, ho, by simpa using hr, ?_⟩
  simp only [ReadRelOfs]
  simp only [show readU32LE out fieldPos = 0 from by simpa using hr]
  simp

theorem pmcLoop_step_41 (cfgs : List ChipCfg) (fuel r v : Nat) (rest : List Nat) :
    pmcLoop cfgs (fuel + 1) (0x41 :: r :: v :: rest) =
      Option.map (fun o => handle41 cfgs [0x41, r, v] ++ o)
        (pmcLoop cfgs fuel rest) := by
  have hlen : effLen (0x41 :: r :: v :: rest) = 3 := by
    simp [effLen, cmd_lengths]
  simp only [pmcLoop, hlen]
  rw [if_neg (by simp)]
  cases h : pmcLoop cfgs fuel rest <;> simp [h]

/-- Claim C1: for the two-chip configuration of the source, a chip in mono
mode with base register `b` maps each complete 3-byte 0x41 command as
follows: a write to `b+0` is passed through and immediately followed by a
synthesized `(0x41, b+1, v)`, a write to `b+3` is passed through and
immediately followed by a synthesized `(0x41, b+2, v)`, and writes to
`b+1` or `b+2` are dropped; the rest of the stream is processed
unchanged. -/
theorem mono_fold_per_register (m0 m1 : Bool) (b : Nat)
    (hb : (b = 0x10 ∧ m0 = true) ∨ (b = 0x90 ∧ m1 = true))
    (v : Nat) (rest : List Nat) (fuel : Nat) :
    pmcLoop (k007232_config m0 m1) (fuel + 1) (0x41 :: (b + 0) :: v :: rest) =
      Option.map (fun o => 0x41 :: (b + 0) :: v :: 0x41 :: (b + 1) :: v :: o)
        (pmcLoop (k007232_config m0 m1) fuel rest) ∧
    pmcLoop (k007232_config m0 m1) (fuel + 1) (0x41 :: (b + 3) :: v :: rest) =
      Option.map (fun o => 0x41 :: (b + 3) :: v :: 0x41 :: (b + 2) :: v :: o)
        (pmcLoop (k007232_config m0 m1) fuel rest) ∧
    pmcLoop (k007232_config m0 m1) (fuel + 1) (0x41 :: (b + 1) :: v :: rest) =
      pmcLoop (k007232_config m0 m1) fuel rest ∧
    pmcLoop (k007232_config m0 m1) (fuel + 1) (0x41 :: (b + 2) :: v :: rest) =
      pmcLoop (k007232_config m0 m1) fuel rest := by
  rcases hb with ⟨rfl, rfl⟩ | ⟨rfl, rfl⟩ <;>
    refine ⟨?_, ?_, ?_, ?_⟩ <;>
    rw [pmcLoop_step_41] <;>
    cases h : pmcLoop (k007232_config _ _) fuel rest <;>
    simp [h, handle41, monoStep, k007232_config]

/-- Witness for `mono_fold_per_register`: chip 0 mono at base 0x10, value
0x7F, empty remainder. -/
theorem mono_fold_per_register_witness :
    (((0x10 : Nat) = 0x10 ∧ true = true) ∨ ((0x10 : Nat) = 0x90 ∧ false = true)) ∧
    (pmcLoop (k007232_config true false) (1 + 1) (0x41 :: (0x10 + 0) :: 0x7F :: []) =
      Option.map (fun o => 0x41 :: (0x10 + 0) :: 0x7F :: 0x41 :: (0x10 + 1) :: 0x7F :: o)
        (pmcLoop (k007232_config true false) 1 []) ∧
    pmcLoop (k007232_config true false) (1 + 1) (0x41 :: (0x10 + 3) :: 0x7F :: []) =
      Option.map (fun o => 0x41 :: (0x10 + 3) :: 0x7F :: 0x41 :: (0x10 + 2) :: 0x7F :: o)
        (pmcLoop (k007232_config true false) 1 []) ∧
    pmcLoop (k007232_config true false) (1 + 1) (0x41 :: (0x10 + 1) :: 0x7F :: []) =
      pmcLoop (k007232_config true false) 1 [] ∧
    pmcLoop (k007232_config true false) (1 + 1) (0x41 :: (0x10 + 2) :: 0x7F :: []) =
      pmcLoop (k007232_config true false) 1 []) :=
  ⟨Or.inl ⟨rfl, rfl⟩,
    mono_fold_per_register true false 0x10 (Or.inl ⟨rfl, rfl⟩) 0x7F [] 1⟩

/-- Claim C2, counterexample: on the spec's example stream with chip base
0x10 in mono mode the rewrite does not produce the claimed byte order (the
claimed order has the synthesized `base+2` mirror before the `base+3`
pass-through, but the code emits the pass-through first). -/
theorem mono_fold_example_cex :
    process_mono_commands (k007232_config true false)
      [0x41, 0x10, 0x7F, 0x41, 0x11, 0x00, 0x41, 0x12, 0x10, 0x41, 0x13, 0x40] ≠
      some [0x41, 0x10, 0x7F, 0x41, 0x11, 0x7F, 0x41, 0x12, 0x40, 0x41, 0x13, 0x40] := by
  decide

/-- Claim C2 (amended): on the example stream the rewrite outputs
`41 10 7F, 41 11 7F, 41 13 40, 41 12 40` — the `base+3` write is passed
through first and its synthesized `base+2` mirror follows it. -/
theorem mono_fold_example :
    process_mono_commands (k007232_config true false)
      [0x41, 0x10, 0x7F, 0x41, 0x11, 0x00, 0x41, 0x12, 0x10, 0x41, 0x13, 0x40] =
      some [0x41, 0x10, 0x7F, 0x41, 0x11, 0x7F, 0x41, 0x13, 0x40, 0x41, 0x12, 0x40] := by
  decide

/-- Claim C3, counterexample: a stream ending mid-command (0x41 with only
one operand byte) is not carried to the output — the loop breaks and the
trailing bytes are dropped, so a pure pass-through run does not
reconstruct the buffer. -/
theorem truncated_tail_dropped_cex :
    process_mono_commands (k007232_config false false) [0x41, 0x10] = some [] ∧
      ([] : List Nat) ≠ [0x41, 0x10] := by
  decide

theorem handle41_stereo (cur : List Nat) :
    handle41 (k007232_config false false) cur = cur := by
  match cur with
  | [] => rfl
  | [_] => rfl
  | [_, _] => rfl
  | _ :: _ :: _ :: _ => rfl

theorem pmc_passthrough (s : List Nat) (h : Tokenizes s) :
    ∀ fuel, s.length < fuel →
      pmcLoop (k007232_config false false) fuel s = some s := by
  induction h with
  | nil =>
    intro fuel hf
    match fuel, hf with
    | f + 1, _ => rfl
  | cons c rest hpos hle htail ih =>
    intro fuel hf
    match fuel, hf with
    | f + 1, hf =>
      have hdl : ((c :: rest).drop (effLen (c :: rest))).length < f := by
        simp only [List.length_drop]
        simp only [List.length_cons] at hf ⊢
        omega
      have htr := ih f hdl
      simp only [pmcLoop]
      rw [if_neg (by omega)]
      have he : (if c = 0x41 ∧ 3 ≤ effLen (c :: rest) then
          handle41 (k007232_config false false) ((c :: rest).take (effLen (c :: rest)))
        else ((c :: rest).take (effLen (c :: rest)))) =
          (c :: rest).take (effLen (c :: rest)) := by
        split
        · exact handle41_stereo _
        · rfl
      rw [he, htr]
      simp [List.take_append_drop]

/-- Claim C3 (amended): when a command's declared length exceeds the
remaining buffer the loop stops and the trailing bytes are dropped from
the output (see `truncated_tail_dropped_cex`); for a pure pass-through run
(no register matched, here: both chips in stereo mode) the concatenated
output reconstructs the input exactly whenever the stream tokenizes
completely. -/
theorem passthrough_reconstructs (cs : List Nat) (h : Tokenizes cs) :
    process_mono_commands (k007232_config false false) cs = some cs :=
  pmc_passthrough cs h (cs.length + 1) (by omega)

/-- Witness for `passthrough_reconstructs` on the stream
`62 41 10 7F` (a one-byte wait, then a complete 3-byte write). -/
theorem passthrough_reconstructs_witness :
    Tokenizes [0x62, 0x41, 0x10, 0x7F] ∧
      process_mono_commands (k007232_config false false) [0x62, 0x41, 0x10, 0x7F] =
        some [0x62, 0x41, 0x10, 0x7F] := by
  have h1 : Tokenizes [0x41, 0x10, 0x7F] := by
    refine Tokenizes.cons _ _ (by decide) (by decide) ?_
    have he : effLen [0x41, 0x10, 0x7F] = 3 := by decide
    rw [he]
    exact Tokenizes.nil
  have h2 : Tokenizes [0x62, 0x41, 0x10, 0x7F] := by
    refine Tokenizes.cons _ _ (by decide) (by decide) ?_
    have he : effLen [0x62, 0x41, 0x10, 0x7F] = 1 := by decide
    rw [he]
    exact h1
  exact ⟨h2, passthrough_reconstructs _ h2⟩

/-- Claim C4 (code bug): on a 0x67 data-block opcode with fewer than 7
bytes remaining the special case does not fire, the generic table gives
length 0, and the loop index never advances — the source loop runs
forever.  In the fuelled embedding, the loop fails to finish for every
amount of fuel. -/
theorem pmcLoop_stuck_on_truncated_datablock (cfgs : List ChipCfg) (fuel : Nat) :
    pmcLoop cfgs fuel [0x67] = none := by
  induction fuel with
  | zero => rfl
  | succ f ih =>
    have he : effLen [0x67] = 0 := by decide
    simp only [pmcLoop, he]
    rw [if_neg (by omega)]
    simp [ih]

theorem ReadRelOfs_congr (l1 l2 : List Nat) (p : Nat)
    (h : readU32LE l1 p = readU32LE l2 p) : ReadRelOfs l1 p = ReadRelOfs l2 p := by
  simp [ReadRelOfs, h]

set_option maxRecDepth 4000 in
/-- Claim C7, counterexample: on an input image whose dataOffset field
(0x34) is stored as 0, the pipeline stores 0x9C there (resolving to
0x40 + delta = 0xD0), so a zero-on-disk dataOffset is rewritten to a
non-zero value. -/
theorem zero_dataofs_rewritten_cex :
    readU32LE zeroOfsImage 0x34 = 0 ∧
      (headerEdit zeroOfsImage).map (fun o => readU32LE o 0x34) = some 0x9C := by
  constructor
  · decide
  · decide

/-- Claim C7 (amended): after the offset rewrite with size delta
`ofsMove`, dataOffset is always rewritten — the value written is the
(defaulted) data offset plus the delta, so a dataOffset stored as 0 on
disk ends up non-zero; loopOffset and gd3Offset are rewritten to resolve
to their old target plus the delta when non-zero and are left untouched
(still storing 0) when 0 on disk; eofOffset resolves to the total buffer
length. -/
theorem rewriteOffsets_pointer_update (buf : List Nat)
    (vgmVer dataOfs loopOfs gd3Ofs : Nat) (ofsMove : Int)
    (hlen : 0x40 ≤ buf.length)
    (hlen2 : (buf.length : Int) < 4 + 4294967296)
    (hd1 : (0x34 : Int) < (dataOfs : Int) + ofsMove)
    (hd2 : (dataOfs : Int) + ofsMove < 0x34 + 4294967296)
    (hl : loopOfs ≠ 0 → (0x1C : Int) < (loopOfs : Int) + ofsMove ∧
      (loopOfs : Int) + ofsMove < 0x1C + 4294967296)
    (hg : gd3Ofs ≠ 0 → (0x14 : Int) < (gd3Ofs : Int) + ofsMove ∧
      (gd3Ofs : Int) + ofsMove < 0x14 + 4294967296) :
    ∃ out, rewriteOffsets buf vgmVer dataOfs loopOfs gd3Ofs ofsMove = some out ∧
      out.length = buf.length ∧
      (ReadRelOfs out 0x34 : Int) = (dataOfs : Int) + ofsMove ∧
      (loopOfs = 0 → readU32LE out 0x1C = readU32LE buf 0x1C) ∧
      (loopOfs ≠ 0 → (ReadRelOfs out 0x1C : Int) = (loopOfs : Int) + ofsMove) ∧
      (gd3Ofs = 0 → readU32LE out 0x14 = readU32LE buf 0x14) ∧
      (gd3Ofs ≠ 0 → (ReadRelOfs out 0x14 : Int) = (gd3Ofs : Int) + ofsMove) ∧
      ReadRelOfs out 0x04 = out.length := by
  -- step 1: the conditional version bump
  obtain ⟨b1, hs1, hl1, hp1⟩ :
      ∃ b1, (if vgmVer < 0x170 then packIntoU32 buf 0x08 0x170 else some buf) = some b1 ∧
        b1.length = buf.length ∧ ∀ j, 12 ≤ j → byteAt b1 j = byteAt buf j := by
    by_cases hver : vgmVer < 0x170
    · obtain ⟨b1, ho, hle, _, hpr⟩ :=
        packIntoU32_spec buf 0x08 0x170 (by omega) (by omega) (by omega)
      exact ⟨b1, by simp [hver, ho], hle, fun j hj => hpr j (Or.inr (by omega))⟩
    · exact ⟨buf, by simp [hver], rfl, fun j _ => rfl⟩
  -- step 2: the unconditional dataOffset write
  obtain ⟨b2, hs2, hl2, hr2, hp2⟩ :=
    WriteRelOfs_spec_pos b1 0x34 ((dataOfs : Int) + ofsMove)
      (by omega) hd1 (by omega)
  -- step 3: the conditional loopOffset write
  obtain ⟨b3, hs3, hl3, hr3z, hr3n, hp3, hp3z⟩ :
      ∃ b3, (if (if loopOfs ≠ 0 then (loopOfs : Int) + ofsMove else 0) ≠ 0 then
          WriteRelOfs b2 0x1C (if loopOfs ≠ 0 then (loopOfs : Int) + ofsMove else 0)
        else some b2) = some b3 ∧
        b3.length = b2.length ∧
        (loopOfs = 0 → readU32LE b3 0x1C = readU32LE b2 0x1C) ∧
        (loopOfs ≠ 0 → (ReadRelOfs b3 0x1C : Int) = (loopOfs : Int) + ofsMove) ∧
        (∀ j, j < 0x1C ∨ 0x20 ≤ j → byteAt b3 j = byteAt b2 j) ∧
        (loopOfs = 0 → ∀ j, byteAt b3 j = byteAt b2 j) := by
    by_cases hlo : loopOfs = 0
    · refine ⟨b2, ?_, rfl, fun _ => rfl, fun hn => absurd hlo hn, fun j _ => rfl,
        fun _ j => rfl⟩
      simp [hlo]
    · obtain ⟨hb1, hb2⟩ := hl hlo
      have hne : ((loopOfs : Int) + ofsMove) ≠ 0 := by omega
      obtain ⟨b3, ho, hle, hrd, hpr⟩ :=
        WriteRelOfs_spec_pos b2 0x1C ((loopOfs : Int) + ofsMove)
          (by omega) hb1 (by omega)
      exact ⟨b3, by simp [hlo, hne, ho], hle, fun h0 => absurd h0 hlo,
        fun _ => hrd, fun j hj => hpr j (by omega), fun h0 => absurd h0 hlo⟩
  -- step 4: the conditional gd3Offset write
  obtain ⟨b4, hs4, hl4, hr4z, hr4n, hp4, hp4z⟩ :
      ∃ b4, (if (if gd3Ofs ≠ 0 then (gd3Ofs : Int) + ofsMove else 0) ≠ 0 then
          WriteRelOfs b3 0x14 (if gd3Ofs ≠ 0 then (gd3Ofs : Int) + ofsMove else 0)
        else some b3) = some b4 ∧
        b4.length = b3.length ∧
        (gd3Ofs = 0 → readU32LE b4 0x14 = readU32LE b3 0x14) ∧
        (gd3Ofs ≠ 0 → (ReadRelOfs b4 0x14 : Int) = (gd3Ofs : Int) + ofsMove) ∧
        (∀ j, j < 0x14 ∨ 0x18 ≤ j → byteAt b4 j = byteAt b3 j) ∧
        (gd3Ofs = 0 → ∀ j, byteAt b4 j = byteAt b3 j) := by
    by_cases hgo : gd3Ofs = 0
    · refine ⟨b3, ?_, rfl, fun _ => rfl, fun hn => absurd hgo hn, fun j _ => rfl,
        fun _ j => rfl⟩
      simp [hgo]
    · obtain ⟨hb1, hb2⟩ := hg hgo
      have hne : ((gd3Ofs : Int) + ofsMove) ≠ 0 := by omega
      obtain ⟨b4, ho, hle, hrd, hpr⟩ :=
        WriteRelOfs_spec_pos b3 0x14 ((gd3Ofs : Int) + ofsMove)
          (by omega) hb1 (by omega)
      exact ⟨b4, by simp [hgo, hne, ho], hle, fun h0 => absurd h0 hgo,
        fun _ => hrd, fun j hj => hpr j (by omega), fun h0 => absurd h0 hgo⟩
  -- step 5: the eofOffset write
  obtain ⟨out, hs5, hl5, hr5, hp5⟩ :=
    WriteRelOfs_spec_pos b4 0x04 (b4.length : Int)
      (by omega) (by omega) (by omega)
  refine ⟨out, ?_, ?_, ?_, ?_, ?_, ?_, ?_, ?_⟩
  · simp only [rewriteOffsets]
    rw [hs1]
    simp only []
    rw [hs2]
    simp only []
    rw [hs3]
    simp only []
    rw [hs4]
    simp only []
    exact hs5
  · omega
  · -- dataOffset: written in step 2, untouched afterwards
    have hb : readU32LE out 0x34 = readU32LE b2 0x34 := by
      apply readU32LE_congr_of_byteAt
      intro k hk
      rw [hp5 _ (by omega), hp4 _ (by omega), hp3 _ (by omega)]
    rw [ReadRelOfs_congr out b2 0x34 hb]
    exact hr2
  · -- loopOffset left untouched when 0 on disk
    intro h0
    have hb : readU32LE out 0x1C = readU32LE buf 0x1C := by
      apply readU32LE_congr_of_byteAt
      intro k hk
      rw [hp5 _ (by omega), hp4 _ (by omega), hp3z h0 _, hp2 _ (by omega),
        hp1 _ (by omega)]
    rw [hb]
  · -- loopOffset moved by the delta when non-zero
    intro hn
    have hb : readU32LE out 0x1C = readU32LE b3 0x1C := by
      apply readU32LE_congr_of_byteAt
      intro k hk
      rw [hp5 _ (by omega), hp4 _ (by omega)]
    rw [ReadRelOfs_congr out b3 0x1C hb]
    exact hr3n hn
  · -- gd3Offset left untouched when 0 on disk
    intro h0
    have hb : readU32LE out 0x14 = readU32LE buf 0x14 := by
      apply readU32LE_congr_of_byteAt
      intro k hk
      rw [hp5 _ (by omega), hp4z h0 _, hp3 _ (by omega), hp2 _ (by omega),
        hp1 _ (by omega)]
    rw [hb]
  · -- gd3Offset moved by the delta when non-zero
    intro hn
    have hb : readU32LE out 0x14 = readU32LE b4 0x14 := by
      apply readU32LE_congr_of_byteAt
      intro k hk
      exact hp5 _ (by omega)
    rw [ReadRelOfs_congr out b4 0x14 hb]
    exact hr4n hn
  · -- eofOffset resolves to the total length
    have : (ReadRelOfs out 0x04 : Int) = (out.length : Int) := by
      rw [hr5]
      omega
    exact_mod_cast this

set_option maxRecDepth 4000 in
/-- Witness for `rewriteOffsets_pointer_update` on a 0xD0-byte buffer with
version 0x150, defaulted data offset 0x40, loop target 0x50, absent gd3
and delta 0x90. -/
theorem rewriteOffsets_pointer_update_witness :
    (0x40 ≤ (List.replicate 0xD0 (0 : Nat)).length) ∧
    (((List.replicate 0xD0 (0 : Nat)).length : Int) < 4 + 4294967296) ∧
    (∃ out, rewriteOffsets (List.replicate 0xD0 0) 0x150 0x40 0x50 0 0x90 = some out ∧
      out.length = (List.replicate 0xD0 (0 : Nat)).length ∧
      (ReadRelOfs out 0x34 : Int) = ((0x40 : Nat) : Int) + 0x90 ∧
      ((0x50 : Nat) = 0 → readU32LE out 0x1C = readU32LE (List.replicate 0xD0 0) 0x1C) ∧
      ((0x50 : Nat) ≠ 0 → (ReadRelOfs out 0x1C : Int) = ((0x50 : Nat) : Int) + 0x90) ∧
      ((0 : Nat) = 0 → readU32LE out 0x14 = readU32LE (List.replicate 0xD0 0) 0x14) ∧
      ((0 : Nat) ≠ 0 → (ReadRelOfs out 0x14 : Int) = ((0 : Nat) : Int) + 0x90) ∧
      ReadRelOfs out 0x04 = out.length) :=
  ⟨by decide, by decide,
    rewriteOffsets_pointer_update (List.replicate 0xD0 0) 0x150 0x40 0x50 0 0x90
      (by decide) (by decide) (by decide) (by decide)
      (fun _ => by constructor <;> decide) (fun h => absurd rfl h)⟩

/-- Witness for `WriteRelOfs_self_target` at field position 8. -/
theorem WriteRelOfs_self_target_witness :
    (8 + 4 ≤ (List.replicate 12 (0 : Nat)).length) ∧ ((8 : Nat) ≠ 0) ∧
    (∃ out, WriteRelOfs (List.replicate 12 0) 8 (((8 : Nat) : Nat) : Int) = some out ∧
      readU32LE out 8 = 0 ∧ ReadRelOfs out 8 = 0) :=
  ⟨by decide, by decide,
    WriteRelOfs_self_target (List.replicate 12 0) 8 (by decide) (by decide)⟩
